import Mathlib

/-!
Shallow embedding of `gif_unveil.py` (two variants: `src/gif_unveil.py` and
`src/gifboxes/gif_unveil.py`) from the HALtheWise/gifboxes repository, together
with theorems settling the specification claims about the grid partitioner, the
frame renderer, the permutation validator, the encoder parameters and the main
pipeline.

Images are modelled as a width, a height and a total pixel function; pixel
values are RGB triples of naturals.  Python integer arithmetic on the
(nonnegative) image dimensions is modelled with `Nat` (Python `//` agrees with
`Nat` division on nonnegative operands); permutation entries are modelled with
`Int`, matching Python's unbounded integers.
-/

namespace GifUnveil

/-- An RGB pixel value, as produced by PIL in mode RGB. -/
abbrev Color := ℕ × ℕ × ℕ

/-- The gray fill value `(128, 128, 128)` used for unrevealed cells. -/
def gray : Color := (128, 128, 128)

/-- A decoded image: width, height and the pixel at each coordinate.
The pixel function is total; only coordinates with `x < width` and
`y < height` are meaningful. -/
structure Img where
  width : ℕ
  height : ℕ
  pix : ℕ → ℕ → Color

/-- `get_grid_coordinates` from `src/gif_unveil.py` (lines 36-50): the bounding
box `(x1, y1, x2, y2)` of each cell of the 3x3 grid, row-major. -/
def get_grid_coordinates (width height : ℕ) : List (ℕ × ℕ × ℕ × ℕ) :=
  let cell_width := width / 3
  let cell_height := height / 3
  (List.range 3).flatMap (fun row =>
    (List.range 3).map (fun col =>
      let x1 := col * cell_width
      let y1 := row * cell_height
      let x2 := if col < 2 then x1 + cell_width else width
      let y2 := if row < 2 then y1 + cell_height else height
      (x1, y1, x2, y2)))

/-- `create_gray_frame` from `src/gif_unveil.py` (lines 53-55): a fresh
width x height image uniformly filled with `(128, 128, 128)`. -/
def create_gray_frame (width height : ℕ) : Img :=
  ⟨width, height, fun _ _ => gray⟩

/-- Membership of the pixel coordinate `(x, y)` in the half-open rectangle
`(x1, y1, x2, y2)`, i.e. `x1 ≤ x < x2` and `y1 ≤ y < y2` — exactly the pixels
PIL's `crop`/`paste` pair transfers for that box. -/
def inRect (r : ℕ × ℕ × ℕ × ℕ) (x y : ℕ) : Prop :=
  r.1 ≤ x ∧ x < r.2.2.1 ∧ r.2.1 ≤ y ∧ y < r.2.2.2

instance (r : ℕ × ℕ × ℕ × ℕ) (x y : ℕ) : Decidable (inRect r x y) := by
  unfold inRect; infer_instance

/-- `frame.paste(original_img.crop((x1, y1, x2, y2)), (x1, y1))`: every pixel
inside the half-open rectangle is replaced by the source pixel at the same
coordinates; pixels outside are untouched. -/
def paste (frame : Img) (src : Img) (rect : ℕ × ℕ × ℕ × ℕ) : Img :=
  ⟨frame.width, frame.height, fun x y =>
    if inRect rect x y then src.pix x y else frame.pix x y⟩

/-- The cell index `permutation[i] - 1` computed by the renderer, as a list
index (entries of a validated permutation lie in 1..9, so `toNat` is exact). -/
def cellIndex (perm : List ℤ) (i : ℕ) : ℕ :=
  (perm.getD i 0 - 1).toNat

/-- The body of the frame loop in `create_unveil_gif` (lines 76-88 of
`src/gif_unveil.py`): start from a fresh gray frame and, for `i` in
`0..frame_num-1`, paste the source region of cell `permutation[i] - 1`. -/
def render_frame (img : Img) (perm : List ℤ) (frame_num : ℕ) : Img :=
  let grid_coords := get_grid_coordinates img.width img.height
  (List.range frame_num).foldl
    (fun frame i => paste frame img (grid_coords.getD (cellIndex perm i) (0, 0, 0, 0)))
    (create_gray_frame img.width img.height)

/-- The `frames` list built by `create_unveil_gif`: the fully gray frame 0
followed by frames 1-9 of progressive unveiling. -/
def create_frames (img : Img) (perm : List ℤ) : List Img :=
  create_gray_frame img.width img.height ::
    (List.range' 1 9).map (fun frame_num => render_frame img perm frame_num)

/-- Python `int()` applied to a real number: truncation toward zero. -/
def pyInt (q : ℚ) : ℤ :=
  if 0 ≤ q then ⌊q⌋ else ⌈q⌉

/-- The data handed to the GIF encoder by `frames[0].save(...)`: the frame
list, the per-frame duration in milliseconds, and the loop parameter
(`none` when the keyword is omitted, i.e. play once). -/
structure EncoderCall where
  frames : List Img
  duration : ℤ
  loop : Option ℕ

/-- The encoder call made by `create_unveil_gif` in `src/gif_unveil.py`
(lines 90-99): `duration = int((duration_seconds * 1000) / len(frames))`,
no `loop` keyword. -/
def encoder_call (img : Img) (perm : List ℤ) (duration_seconds : ℚ) : EncoderCall :=
  let frames := create_frames img perm
  ⟨frames, pyInt ((duration_seconds * 1000) / (frames.length : ℚ)), none⟩

/-- A nonempty all-digit character run, read as a number; anything else is
`none`.  (Python's digit-group underscores and non-ASCII digits are not
modelled; they cannot produce a value in 1..9 from a well-formed token.) -/
def parseDigits (cs : List Char) : Option ℤ :=
  if cs ≠ [] ∧ cs.all Char.isDigit then
    some (cs.foldl (fun acc c => acc * 10 + ((c.toNat - 48 : ℕ) : ℤ)) 0)
  else none

/-- Python `int(s)` on a string token: strip surrounding whitespace, optional
sign, then a nonempty run of decimal digits; anything else raises
`ValueError`, modelled as `none`. -/
def pyParseInt (cs : List Char) : Option ℤ :=
  let stripped := ((cs.dropWhile Char.isWhitespace).reverse.dropWhile
    Char.isWhitespace).reverse
  match stripped with
  | [] => none
  | c :: rest =>
    if c = '-' then (parseDigits rest).map (fun n => -n)
    else if c = '+' then parseDigits rest
    else parseDigits (c :: rest)

/-- Python `s.split()` (no separator): split on runs of whitespace, dropping
empty tokens. -/
def splitWhitespace (cs : List Char) : List (List Char) :=
  (cs.foldr
    (fun c acc =>
      if c.isWhitespace then [] :: acc
      else
        match acc with
        | [] => [[c]]
        | t :: ts => (c :: t) :: ts)
    []).filter (fun t => t ≠ [])

/-- Python `s.split(',')`: split at every comma, keeping empty pieces. -/
def splitComma (cs : List Char) : List (List Char) :=
  cs.foldr
    (fun c acc =>
      if c = ',' then [] :: acc
      else
        match acc with
        | [] => [[c]]
        | t :: ts => (c :: t) :: ts)
    [[]]

/-- Python truthiness of `x.strip()`: the token contains a non-whitespace
character. -/
def stripNonempty (t : List Char) : Bool :=
  t.any (fun c => !c.isWhitespace)

/-- The parsing step of `validate_permutation` in `src/gif_unveil.py`
(lines 19-24): if the string contains a comma or a space, replace commas by
spaces and split on whitespace (with the `if x.strip()` filter); otherwise
parse each single character.  `none` models a `ValueError` escaping from
`int(x)`. -/
def parse_tokens (perm_str : String) : Option (List ℤ) :=
  let cs := perm_str.toList
  if cs.contains ',' || cs.contains ' ' then
    ((splitWhitespace (cs.map (fun c => if c = ',' then ' ' else c))).filter
      stripNonempty).mapM pyParseInt
  else
    cs.mapM (fun c => pyParseInt [c])

/-- `validate_permutation` from `src/gif_unveil.py` (lines 16-33).
`Except.error ()` models the `except ValueError` branch, which prints the
diagnostic and calls `sys.exit(1)`. -/
def validate_permutation (perm_str : String) : Except Unit (List ℤ) :=
  match parse_tokens perm_str with
  | none => .error ()
  | some perm =>
    if perm.length ≠ 9 then .error ()
    else if perm.toFinset ≠ Finset.Icc (1 : ℤ) 9 then .error ()
    else .ok perm

/-! The second variant, `src/gifboxes/gif_unveil.py`.  Its grid partitioner and
frame renderer are translated afresh from that file; `paste` (PIL semantics,
external to both variants) is shared. -/

namespace V2

/-- The parsing step of `validate_permutation` in `src/gifboxes/gif_unveil.py`
(line 19): `[int(x) for x in perm_str.split(',') if x.strip()]`. -/
def parse_tokens (perm_str : String) : Option (List ℤ) :=
  ((splitComma perm_str.toList).filter stripNonempty).mapM pyParseInt

/-- `validate_permutation` from `src/gifboxes/gif_unveil.py` (lines 16-27). -/
def validate_permutation (perm_str : String) : Except Unit (List ℤ) :=
  match parse_tokens perm_str with
  | none => .error ()
  | some perm =>
    if perm.length ≠ 9 then .error ()
    else if perm.toFinset ≠ Finset.Icc (1 : ℤ) 9 then .error ()
    else .ok perm

/-- `get_grid_coordinates` from `src/gifboxes/gif_unveil.py` (lines 30-44). -/
def get_grid_coordinates (width height : ℕ) : List (ℕ × ℕ × ℕ × ℕ) :=
  let cell_width := width / 3
  let cell_height := height / 3
  (List.range 3).flatMap (fun row =>
    (List.range 3).map (fun col =>
      let x1 := col * cell_width
      let y1 := row * cell_height
      let x2 := if col < 2 then x1 + cell_width else width
      let y2 := if row < 2 then y1 + cell_height else height
      (x1, y1, x2, y2)))

/-- `create_gray_frame` from `src/gifboxes/gif_unveil.py` (lines 47-49). -/
def create_gray_frame (width height : ℕ) : Img :=
  ⟨width, height, fun _ _ => gray⟩

/-- The frame loop of `create_unveil_gif` in `src/gifboxes/gif_unveil.py`
(lines 66-80). -/
def render_frame (img : Img) (perm : List ℤ) (frame_num : ℕ) : Img :=
  let grid_coords := V2.get_grid_coordinates img.width img.height
  (List.range frame_num).foldl
    (fun frame i => paste frame img (grid_coords.getD (cellIndex perm i) (0, 0, 0, 0)))
    (V2.create_gray_frame img.width img.height)

/-- The `frames` list built by `create_unveil_gif` in
`src/gifboxes/gif_unveil.py`. -/
def create_frames (img : Img) (perm : List ℤ) : List Img :=
  V2.create_gray_frame img.width img.height ::
    (List.range' 1 9).map (fun frame_num => V2.render_frame img perm frame_num)

/-- The encoder call made by `create_unveil_gif` in
`src/gifboxes/gif_unveil.py` (lines 83-89): fixed `duration=500`, `loop=0`
(infinite loop). -/
def encoder_call (img : Img) (perm : List ℤ) : EncoderCall :=
  ⟨V2.create_frames img perm, 500, some 0⟩

end V2

/-! The `main` pipeline of `src/gif_unveil.py` (lines 108-131), with the
outcomes of the two external steps (image decode, GIF encode) abstracted as
booleans. -/

/-- The observable steps `main` can attempt, in program order. -/
inductive Event
  | checkFile
  | validatePerm
  | decodeImage
  | renderFrames
  | encodeGif
deriving DecidableEq

/-- The error kind reported on a failing run: the file-existence check in
`main`, the permutation diagnostic from `validate_permutation`, or the
catch-all `except` in `create_unveil_gif` (decode or encode failure). -/
inductive ErrKind
  | fileNotFound
  | invalidPermutation
  | createGifError
deriving DecidableEq

/-- A run's inputs: whether the input path exists, the raw permutation string,
and whether the external decode and encode steps succeed. -/
structure RunInput where
  fileExists : Bool
  permStr : String
  decodeOk : Bool
  encodeOk : Bool

/-- A run's observable outcome: the steps attempted in order, the reported
error (if any) and the process exit status. -/
structure RunResult where
  trace : List Event
  err : Option ErrKind
  exitCode : ℕ
deriving DecidableEq

/-- `main` from `src/gif_unveil.py` (lines 108-131): check the input file
exists, then validate the permutation (exiting with status 1 from inside the
validator on failure), then run `create_unveil_gif`, whose `try` block decodes,
renders and encodes, and whose `except` block prints a diagnostic and calls
`sys.exit(1)`. -/
def main_run (inp : RunInput) : RunResult :=
  if ¬ inp.fileExists then
    ⟨[.checkFile], some .fileNotFound, 1⟩
  else
    match validate_permutation inp.permStr with
    | .error _ => ⟨[.checkFile, .validatePerm], some .invalidPermutation, 1⟩
    | .ok _ =>
      if ¬ inp.decodeOk then
        ⟨[.checkFile, .validatePerm, .decodeImage], some .createGifError, 1⟩
      else if ¬ inp.encodeOk then
        ⟨[.checkFile, .validatePerm, .decodeImage, .renderFrames, .encodeGif],
          some .createGifError, 1⟩
      else
        ⟨[.checkFile, .validatePerm, .decodeImage, .renderFrames, .encodeGif],
          none, 0⟩

/-! Derived notions used to state the claims. -/

instance : Inhabited Img := ⟨⟨0, 0, fun _ _ => gray⟩⟩

/-- The rectangle the partitioner produces for grid row `row` and column
`col` (both in 0..2): the x-span depends only on the column, the y-span only
on the row, and the last row/column absorbs the remainder. -/
def cellRect (w h row col : ℕ) : ℕ × ℕ × ℕ × ℕ :=
  (col * (w / 3), row * (h / 3),
   if col < 2 then col * (w / 3) + w / 3 else w,
   if row < 2 then row * (h / 3) + h / 3 else h)

/-- Exactly the checks `validate_permutation` performs before returning:
9 entries whose set is `{1, ..., 9}`. -/
def is_valid_perm (p : List ℤ) : Prop :=
  p.length = 9 ∧ p.toFinset = Finset.Icc (1 : ℤ) 9

instance : DecidablePred is_valid_perm := fun p => by
  unfold is_valid_perm; infer_instance

/-- Pixel `(x, y)` lies in one of the cells pasted into frame `k`, i.e. in the
rectangle of cell `permutation[i] - 1` for some `i < k`. -/
def revealedAt (img : Img) (perm : List ℤ) (k x y : ℕ) : Prop :=
  ∃ i, i < k ∧
    inRect ((get_grid_coordinates img.width img.height).getD
      (cellIndex perm i) (0, 0, 0, 0)) x y

instance (img : Img) (perm : List ℤ) (k x y : ℕ) :
    Decidable (revealedAt img perm k x y) := by
  unfold revealedAt; infer_instance

/-- The set of 0-based cell indices pasted into frame `k`: the first `k`
permutation entries, shifted to 0-based. -/
def revealedCells (perm : List ℤ) (k : ℕ) : Finset ℕ :=
  ((perm.take k).map (fun v => (v - 1).toNat)).toFinset

/-! Lemmas about the grid partitioner. -/

lemma grid_length (w h : ℕ) : (get_grid_coordinates w h).length = 9 := rfl

lemma grid_getD (w h : ℕ) {i : ℕ} (hi : i < 9) :
    (get_grid_coordinates w h).getD i (0, 0, 0, 0) =
      cellRect w h (i / 3) (i % 3) := by
  interval_cases i <;> rfl

lemma grid_get (w h i : ℕ) (hi : i < (get_grid_coordinates w h).length) :
    (get_grid_coordinates w h).get ⟨i, hi⟩ = cellRect w h (i / 3) (i % 3) := by
  have h9 : i < 9 := hi
  interval_cases i <;> rfl

lemma exists_lt_three (P : ℕ → Prop) :
    (∃ n, n < 3 ∧ P n) ↔ P 0 ∨ P 1 ∨ P 2 := by
  constructor
  · rintro ⟨n, hn, hP⟩
    interval_cases n
    · exact Or.inl hP
    · exact Or.inr (Or.inl hP)
    · exact Or.inr (Or.inr hP)
  · rintro (h | h | h)
    · exact ⟨0, by omega, h⟩
    · exact ⟨1, by omega, h⟩
    · exact ⟨2, by omega, h⟩

lemma mem_grid_iff (w h : ℕ) (r : ℕ × ℕ × ℕ × ℕ) :
    r ∈ get_grid_coordinates w h ↔
      ∃ row, row < 3 ∧ ∃ col, col < 3 ∧ r = cellRect w h row col := by
  simp only [get_grid_coordinates, List.mem_flatMap, List.mem_map,
    List.mem_range]
  constructor
  · rintro ⟨row, hrow, col, hcol, hbody⟩
    exact ⟨row, hrow, col, hcol, hbody.symm⟩
  · rintro ⟨row, hrow, col, hcol, rfl⟩
    exact ⟨row, hrow, col, hcol, rfl⟩

lemma exists_mem_grid_iff (w h : ℕ) (P : ℕ × ℕ × ℕ × ℕ → Prop) :
    (∃ r ∈ get_grid_coordinates w h, P r) ↔
      ∃ row, row < 3 ∧ ∃ col, col < 3 ∧ P (cellRect w h row col) := by
  constructor
  · rintro ⟨r, hr, hP⟩
    obtain ⟨row, hrow, col, hcol, rfl⟩ := (mem_grid_iff w h r).1 hr
    exact ⟨row, hrow, col, hcol, hP⟩
  · rintro ⟨row, hrow, col, hcol, hP⟩
    exact ⟨_, (mem_grid_iff w h _).2 ⟨row, hrow, col, hcol, rfl⟩, hP⟩

lemma grid_covers (w h x y : ℕ) :
    (x < w ∧ y < h) ↔ ∃ r ∈ get_grid_coordinates w h, inRect r x y := by
  rw [exists_mem_grid_iff]
  simp only [exists_lt_three]
  simp only [inRect, cellRect]
  norm_num
  omega

lemma grid_pairwise (w h : ℕ) :
    (get_grid_coordinates w h).Pairwise
      (fun r s => ∀ x y, ¬(inRect r x y ∧ inRect s x y)) := by
  rw [List.pairwise_iff_get]
  rintro ⟨i, hi⟩ ⟨j, hj⟩ hij x y ⟨h1, h2⟩
  rw [grid_get] at h1 h2
  have hi9 : i < 9 := hi
  have hj9 : j < 9 := hj
  have hij9 : i < j := hij
  interval_cases i <;> interval_cases j <;>
    first
      | omega
      | (simp only [inRect, cellRect] at h1 h2; norm_num at h1 h2; omega)

/-! Lemmas about the frame renderer. -/

lemma paste_pix (f s : Img) (r : ℕ × ℕ × ℕ × ℕ) (x y : ℕ) :
    (paste f s r).pix x y = if inRect r x y then s.pix x y else f.pix x y := rfl

lemma paste_width (f s : Img) (r : ℕ × ℕ × ℕ × ℕ) :
    (paste f s r).width = f.width := rfl

lemma paste_height (f s : Img) (r : ℕ × ℕ × ℕ × ℕ) :
    (paste f s r).height = f.height := rfl

lemma render_frame_succ (img : Img) (perm : List ℤ) (k : ℕ) :
    render_frame img perm (k + 1) =
      paste (render_frame img perm k) img
        ((get_grid_coordinates img.width img.height).getD
          (cellIndex perm k) (0, 0, 0, 0)) := by
  simp [render_frame, List.range_succ]

lemma render_frame_width (img : Img) (perm : List ℤ) (k : ℕ) :
    (render_frame img perm k).width = img.width := by
  induction k with
  | zero => rfl
  | succ k ih => rw [render_frame_succ, paste_width]; exact ih

lemma render_frame_height (img : Img) (perm : List ℤ) (k : ℕ) :
    (render_frame img perm k).height = img.height := by
  induction k with
  | zero => rfl
  | succ k ih => rw [render_frame_succ, paste_height]; exact ih

lemma render_frame_pix (img : Img) (perm : List ℤ) (k x y : ℕ) :
    (render_frame img perm k).pix x y =
      if revealedAt img perm k x y then img.pix x y else gray := by
  induction k with
  | zero =>
    rw [if_neg]
    · rfl
    · rintro ⟨i, hi, -⟩; omega
  | succ k ih =>
    rw [render_frame_succ, paste_pix]
    by_cases hR : inRect ((get_grid_coordinates img.width img.height).getD
        (cellIndex perm k) (0, 0, 0, 0)) x y
    · rw [if_pos hR, if_pos ⟨k, Nat.lt_succ_self k, hR⟩]
    · rw [if_neg hR, ih]
      by_cases hrev : revealedAt img perm k x y
      · rw [if_pos hrev]
        obtain ⟨i, hik, hin⟩ := hrev
        rw [if_pos ⟨i, by omega, hin⟩]
      · rw [if_neg hrev, if_neg]
        rintro ⟨i, hik, hin⟩
        rcases Nat.lt_succ_iff_lt_or_eq.1 hik with h | h
        · exact hrev ⟨i, h, hin⟩
        · subst h; exact hR hin

lemma create_frames_length (img : Img) (perm : List ℤ) :
    (create_frames img perm).length = 10 := rfl

lemma create_frames_eq (img : Img) (perm : List ℤ) :
    create_frames img perm =
      [create_gray_frame img.width img.height,
       render_frame img perm 1, render_frame img perm 2, render_frame img perm 3,
       render_frame img perm 4, render_frame img perm 5, render_frame img perm 6,
       render_frame img perm 7, render_frame img perm 8,
       render_frame img perm 9] := by
  simp only [create_frames,
    show List.range' 1 9 = [1, 2, 3, 4, 5, 6, 7, 8, 9] from rfl,
    List.map_cons, List.map_nil]

lemma create_frames_getD (img : Img) (perm : List ℤ) {k : ℕ} (hk : k ≤ 9) :
    (create_frames img perm).getD k default = render_frame img perm k := by
  have hcases : k = 0 ∨ k = 1 ∨ k = 2 ∨ k = 3 ∨ k = 4 ∨ k = 5 ∨ k = 6 ∨
      k = 7 ∨ k = 8 ∨ k = 9 := by omega
  rw [create_frames_eq]
  rcases hcases with rfl | rfl | rfl | rfl | rfl | rfl | rfl | rfl | rfl | rfl <;>
    (simp only [List.getD_cons_succ, List.getD_cons_zero]; try rfl)

/-! Lemmas about validated permutations. -/

lemma is_valid_perm_nodup {p : List ℤ} (hp : is_valid_perm p) : p.Nodup := by
  have hcard : p.dedup.length = 9 := by
    have hc := congrArg Finset.card hp.2
    rw [List.card_toFinset] at hc
    simpa using hc
  have heq : p.dedup = p :=
    p.dedup_sublist.eq_of_length (by rw [hcard, hp.1])
  rw [← heq]
  exact p.nodup_dedup

lemma is_valid_perm_mem {p : List ℤ} (hp : is_valid_perm p) {v : ℤ}
    (hv : v ∈ p) : 1 ≤ v ∧ v ≤ 9 := by
  have hm : v ∈ p.toFinset := List.mem_toFinset.2 hv
  rw [hp.2, Finset.mem_Icc] at hm
  exact hm

lemma is_valid_perm_mem_of_range {p : List ℤ} (hp : is_valid_perm p) {v : ℤ}
    (h1 : 1 ≤ v) (h9 : v ≤ 9) : v ∈ p := by
  have hm : v ∈ p.toFinset := by rw [hp.2, Finset.mem_Icc]; exact ⟨h1, h9⟩
  exact List.mem_toFinset.1 hm

lemma getD_eq_get (l : List ℤ) (i : ℕ) (hi : i < l.length) :
    l.getD i 0 = l.get ⟨i, hi⟩ := by
  simp [List.getD_eq_getElem?_getD, List.getElem?_eq_getElem hi]

lemma is_valid_perm_getD_mem {p : List ℤ} (hp : is_valid_perm p) {i : ℕ}
    (hi : i < 9) : p.getD i 0 ∈ p := by
  rw [getD_eq_get p i (by rw [hp.1]; exact hi)]
  exact p.get_mem i _

lemma mem_exists_getD {p : List ℤ} (hp : is_valid_perm p) {v : ℤ}
    (hv : v ∈ p) : ∃ i, i < 9 ∧ p.getD i 0 = v := by
  obtain ⟨⟨i, hi⟩, hget⟩ := List.mem_iff_get.1 hv
  refine ⟨i, by rw [← hp.1]; exact hi, ?_⟩
  rw [getD_eq_get p i hi]
  exact hget

lemma take_succ_eq {p : List ℤ} {k : ℕ} (hk : k < p.length) :
    p.take (k + 1) = p.take k ++ [p.getD k 0] := by
  rw [List.take_succ]
  congr 1
  rw [getD_eq_get p k hk]
  simp [List.getElem?_eq_getElem hk, List.get_eq_getElem]

lemma getD_not_mem_take {p : List ℤ} (hp : is_valid_perm p) {k : ℕ}
    (hk : k < 9) : p.getD k 0 ∉ p.take k := by
  have hklen : k < p.length := by rw [hp.1]; exact hk
  have hnd : (p.take (k + 1)).Nodup :=
    (p.take_sublist (k + 1)).nodup (is_valid_perm_nodup hp)
  rw [take_succ_eq hklen] at hnd
  intro hmem
  exact (List.nodup_append.1 hnd).2.2 hmem (List.mem_singleton_self _)

lemma cellIndex_not_mem_revealedCells {p : List ℤ} (hp : is_valid_perm p)
    {k : ℕ} (hk : k < 9) : cellIndex p k ∉ revealedCells p k := by
  intro hmem
  rw [revealedCells, List.mem_toFinset, List.mem_map] at hmem
  obtain ⟨v, hv, heq⟩ := hmem
  have hv19 := is_valid_perm_mem hp ((p.take_subset k) hv)
  have hg19 := is_valid_perm_mem hp (is_valid_perm_getD_mem hp hk)
  have hveq : v = p.getD k 0 := by
    unfold cellIndex at heq
    omega
  rw [hveq] at hv
  exact getD_not_mem_take hp hk hv

lemma revealedCells_succ {p : List ℤ} (hp : is_valid_perm p) {k : ℕ}
    (hk : k < 9) :
    revealedCells p (k + 1) = insert (cellIndex p k) (revealedCells p k) := by
  have hklen : k < p.length := by rw [hp.1]; exact hk
  unfold revealedCells
  rw [take_succ_eq hklen, List.map_append, List.toFinset_append]
  simp only [List.map_cons, List.map_nil, List.toFinset_cons, List.toFinset_nil,
    insert_emptyc_eq]
  rw [Finset.union_comm, ← Finset.insert_eq]
  rfl

/-! The claim theorems. -/

/-- C1: for every (nonnegative, as image dimensions are) width and height, the
partitioner returns exactly 9 rectangles in row-major order — the rectangle at
position `3 * row + col` is the cell of grid row `row` and column `col` — that
are pairwise non-overlapping and whose union is exactly the half-open box
`[0, width) × [0, height)`, with no gaps. -/
theorem grid_partition_correct (w h : ℕ) :
    (get_grid_coordinates w h).length = 9 ∧
    (∀ row col : Fin 3,
      (get_grid_coordinates w h).getD (3 * row.1 + col.1) (0, 0, 0, 0) =
        cellRect w h row.1 col.1) ∧
    (get_grid_coordinates w h).Pairwise
      (fun r s => ∀ x y, ¬(inRect r x y ∧ inRect s x y)) ∧
    (∀ x y, (x < w ∧ y < h) ↔ ∃ r ∈ get_grid_coordinates w h, inRect r x y) := by
  refine ⟨grid_length w h, ?_, grid_pairwise w h, fun x y => grid_covers w h x y⟩
  rintro ⟨row, hrow⟩ ⟨col, hcol⟩
  rw [grid_getD w h (by omega)]
  have e1 : (3 * row + col) / 3 = row := by omega
  have e2 : (3 * row + col) % 3 = col := by omega
  rw [e1, e2]

/-- Witness for C1 at the 10×10 scenario from the spec. -/
theorem grid_partition_correct_witness :
    (get_grid_coordinates 10 10).length = 9 ∧
    ((get_grid_coordinates 10 10).getD (3 * (2 : Fin 3).1 + (2 : Fin 3).1)
      (0, 0, 0, 0) = cellRect 10 10 2 2) ∧
    (0 < 10 ∧ 0 < 10 ↔ ∃ r ∈ get_grid_coordinates 10 10, inRect r 0 0) :=
  ⟨(grid_partition_correct 10 10).1,
   (grid_partition_correct 10 10).2.1 2 2,
   (grid_partition_correct 10 10).2.2.2 0 0⟩

/-- C3: for every valid permutation and every `k` in 0..8, the revealed cell
set of frame `k` is a strict subset of that of frame `k + 1`, and frame
`k + 1`'s revealed set is frame `k`'s set plus exactly one additional cell
(the cell `permutation[k] - 1`, which was not yet revealed). -/
theorem reveal_strictly_monotonic (perm : List ℤ) (hp : is_valid_perm perm) :
    ∀ k : Fin 9,
      revealedCells perm k.1 ⊂ revealedCells perm (k.1 + 1) ∧
      revealedCells perm (k.1 + 1) =
        insert (cellIndex perm k.1) (revealedCells perm k.1) ∧
      cellIndex perm k.1 ∉ revealedCells perm k.1 ∧
      (revealedCells perm (k.1 + 1)).card = (revealedCells perm k.1).card + 1 := by
  intro k
  have hk9 : k.1 < 9 := k.2
  have hsucc := revealedCells_succ hp hk9
  have hnot := cellIndex_not_mem_revealedCells hp hk9
  refine ⟨?_, hsucc, hnot, ?_⟩
  · rw [hsucc]
    exact Finset.ssubset_insert hnot
  · rw [hsucc]
    exact Finset.card_insert_of_not_mem hnot

/-- Witness for C3 on the identity permutation at `k = 0`. -/
theorem reveal_strictly_monotonic_witness :
    revealedCells [1, 2, 3, 4, 5, 6, 7, 8, 9] 0 ⊂
      revealedCells [1, 2, 3, 4, 5, 6, 7, 8, 9] 1 :=
  (reveal_strictly_monotonic [1, 2, 3, 4, 5, 6, 7, 8, 9] (by decide)
    ⟨0, by decide⟩).1

/-- C7: for degenerate dimensions (`width < 3` or `height < 3`) the
partitioner — a total function with no special-case branch — still returns 9
rectangles, among which some have zero width (`x2 = x1`) or zero height
(`y2 = y1`). -/
theorem degenerate_dimensions_total (w h : ℕ) (hdeg : w < 3 ∨ h < 3) :
    (get_grid_coordinates w h).length = 9 ∧
    ∃ r ∈ get_grid_coordinates w h, (r.2.2.1 = r.1 ∨ r.2.2.2 = r.2.1) := by
  refine ⟨grid_length w h, ?_⟩
  rw [exists_mem_grid_iff]
  rcases hdeg with hw | hh
  · refine ⟨0, by omega, 0, by omega, Or.inl ?_⟩
    simp only [cellRect]
    norm_num
    omega
  · refine ⟨0, by omega, 0, by omega, Or.inr ?_⟩
    simp only [cellRect]
    norm_num
    omega

/-- Witness for C7 at width 2, height 10. -/
theorem degenerate_dimensions_total_witness :
    (get_grid_coordinates 2 10).length = 9 ∧
    ∃ r ∈ get_grid_coordinates 2 10, (r.2.2.1 = r.1 ∨ r.2.2.2 = r.2.1) :=
  degenerate_dimensions_total 2 10 (by decide)

/-- C2: for every source image and every valid permutation the renderer
produces 10 frames of the image's size; frame 0 is uniformly gray; every
frame `k` is source-identical exactly on the pixels covered by the cells
`permutation[0..k-1]` (0-based) and gray everywhere else; and frame 9 is
pixel-identical to the source image. -/
theorem renderer_frames_correct (img : Img) (perm : List ℤ)
    (hp : is_valid_perm perm) :
    (create_frames img perm).length = 10 ∧
    (∀ k : Fin 10,
      ((create_frames img perm).getD k.1 default).width = img.width ∧
      ((create_frames img perm).getD k.1 default).height = img.height) ∧
    (∀ x y, ((create_frames img perm).getD 0 default).pix x y = gray) ∧
    (∀ k : Fin 10, ∀ x y,
      ((create_frames img perm).getD k.1 default).pix x y =
        if revealedAt img perm k.1 x y then img.pix x y else gray) ∧
    (∀ x y, x < img.width → y < img.height →
      ((create_frames img perm).getD 9 default).pix x y = img.pix x y) := by
  refine ⟨create_frames_length img perm, ?_, ?_, ?_, ?_⟩
  · intro k
    have hk : k.1 ≤ 9 := by omega
    rw [create_frames_getD img perm hk]
    exact ⟨render_frame_width img perm k.1, render_frame_height img perm k.1⟩
  · intro x y
    rw [create_frames_getD img perm (by omega), render_frame_pix, if_neg]
    rintro ⟨i, hi, -⟩
    omega
  · intro k x y
    have hk : k.1 ≤ 9 := by omega
    rw [create_frames_getD img perm hk, render_frame_pix]
  · intro x y hx hy
    rw [create_frames_getD img perm (by omega), render_frame_pix]
    have hrev : revealedAt img perm 9 x y := by
      obtain ⟨r, hr, hin⟩ :=
        (grid_covers img.width img.height x y).1 ⟨hx, hy⟩
      obtain ⟨row, hrow, col, hcol, rfl⟩ :=
        (mem_grid_iff img.width img.height r).1 hr
      have hj9 : 3 * row + col < 9 := by omega
      have hv : ((3 * row + col : ℕ) : ℤ) + 1 ∈ perm := by
        refine is_valid_perm_mem_of_range hp (by omega) ?_
        have : (3 * row + col : ℕ) ≤ 8 := by omega
        push_cast
        omega
      obtain ⟨i, hi9, hgi⟩ := mem_exists_getD hp hv
      refine ⟨i, by omega, ?_⟩
      have hci : cellIndex perm i = 3 * row + col := by
        unfold cellIndex
        rw [hgi]
        omega
      rw [hci, grid_getD img.width img.height hj9]
      have e1 : (3 * row + col) / 3 = row := by omega
      have e2 : (3 * row + col) % 3 = col := by omega
      rw [e1, e2]
      exact hin
    rw [if_pos hrev]

/-- Witness for C2: a concrete 3×3 image and the identity permutation; frame 9
reproduces the source pixel at (2, 1). -/
theorem renderer_frames_correct_witness :
    is_valid_perm [1, 2, 3, 4, 5, 6, 7, 8, 9] ∧
    ((create_frames ⟨3, 3, fun x y => (x, y, 7)⟩
        [1, 2, 3, 4, 5, 6, 7, 8, 9]).getD 9 default).pix 2 1 = (2, 1, 7) :=
  ⟨by decide, by
    have h := renderer_frames_correct ⟨3, 3, fun x y => (x, y, 7)⟩
      [1, 2, 3, 4, 5, 6, 7, 8, 9] (by decide)
    exact h.2.2.2.2 2 1 (by norm_num) (by norm_num)⟩

/-- C10: for every validated permutation, every grid lookup performed by the
renderer is in bounds — each entry lies in 1..9, so the 0-based cell index is
below the grid list's length — and within one frame the pasted cell indices
are pairwise distinct (no cell is pasted twice). -/
theorem renderer_lookup_safe (perm : List ℤ) (hp : is_valid_perm perm) :
    (∀ i : Fin 9, 1 ≤ perm.getD i.1 0 ∧ perm.getD i.1 0 ≤ 9 ∧
      (∀ w h, cellIndex perm i.1 < (get_grid_coordinates w h).length)) ∧
    (∀ k : Fin 10, ((List.range k.1).map (cellIndex perm)).Nodup) := by
  constructor
  · intro i
    have hb := is_valid_perm_mem hp (is_valid_perm_getD_mem hp i.2)
    refine ⟨hb.1, hb.2, ?_⟩
    intro w h
    rw [grid_length]
    unfold cellIndex
    omega
  · intro k
    refine List.Nodup.map_on ?_ (List.nodup_range k.1)
    intro a ha b hb hfab
    rw [List.mem_range] at ha hb
    have hk10 : k.1 < 10 := k.2
    have ha9 : a < 9 := by omega
    have hb9 : b < 9 := by omega
    have hga := is_valid_perm_mem hp (is_valid_perm_getD_mem hp ha9)
    have hgb := is_valid_perm_mem hp (is_valid_perm_getD_mem hp hb9)
    have hg : perm.getD a 0 = perm.getD b 0 := by
      unfold cellIndex at hfab
      omega
    have hal : a < perm.length := by rw [hp.1]; exact ha9
    have hbl : b < perm.length := by rw [hp.1]; exact hb9
    rw [getD_eq_get _ _ hal, getD_eq_get _ _ hbl] at hg
    have hfin := ((is_valid_perm_nodup hp).get_inj_iff).1 hg
    exact congrArg Fin.val hfin

/-- Witness for C10 on the reversed permutation. -/
theorem renderer_lookup_safe_witness :
    ((List.range 9).map (cellIndex [9, 8, 7, 6, 5, 4, 3, 2, 1])).Nodup :=
  (renderer_lookup_safe [9, 8, 7, 6, 5, 4, 3, 2, 1] (by decide)).2 ⟨9, by decide⟩

/-- C4: each variant's validator returns the parsed list exactly when parsing
succeeds with 9 numbers whose set (deduplicated) is `{1, ..., 9}`, and
otherwise takes the error path (diagnostic plus `sys.exit(1)`); success
implies no duplicates, no out-of-range values and no missing values. -/
theorem validator_accepts_iff :
    (∀ s p, validate_permutation s = .ok p ↔
      (parse_tokens s = some p ∧ p.length = 9 ∧
        p.toFinset = Finset.Icc (1 : ℤ) 9)) ∧
    (∀ s, validate_permutation s = .error () ↔
      ∀ p, parse_tokens s = some p →
        (p.length ≠ 9 ∨ p.toFinset ≠ Finset.Icc (1 : ℤ) 9)) ∧
    (∀ s p, validate_permutation s = .ok p →
      p.Nodup ∧ (∀ v ∈ p, 1 ≤ v ∧ v ≤ 9) ∧ p.length = 9) ∧
    (∀ s p, V2.validate_permutation s = .ok p ↔
      (V2.parse_tokens s = some p ∧ p.length = 9 ∧
        p.toFinset = Finset.Icc (1 : ℤ) 9)) := by
  have hmain : ∀ s p, validate_permutation s = .ok p ↔
      (parse_tokens s = some p ∧ p.length = 9 ∧
        p.toFinset = Finset.Icc (1 : ℤ) 9) := by
    intro s p
    unfold validate_permutation
    rcases hps : parse_tokens s with _ | q
    · constructor
      · intro hcontra
        exact absurd hcontra (by simp)
      · rintro ⟨hq, -, -⟩
        exact Option.noConfusion hq
    · dsimp only
      split_ifs with h1 h2
      · constructor
        · intro hcontra
          exact absurd hcontra (by simp)
        · rintro ⟨hq, hl, -⟩
          rw [Option.some.injEq] at hq
          subst hq
          exact absurd hl h1
      · constructor
        · intro hcontra
          exact absurd hcontra (by simp)
        · rintro ⟨hq, -, hf⟩
          rw [Option.some.injEq] at hq
          subst hq
          exact absurd hf h2
      · push_neg at h1 h2
        constructor
        · intro hok
          rw [Except.ok.injEq] at hok
          subst hok
          exact ⟨rfl, h1, h2⟩
        · rintro ⟨hq, -, -⟩
          rw [Option.some.injEq] at hq
          subst hq
          rfl
  refine ⟨hmain, ?_, ?_, ?_⟩
  · intro s
    unfold validate_permutation
    rcases hps : parse_tokens s with _ | q
    · constructor
      · intro _ p hp
        exact Option.noConfusion hp
      · intro _
        rfl
    · dsimp only
      split_ifs with h1 h2
      · constructor
        · intro _ p hp
          rw [Option.some.injEq] at hp
          subst hp
          exact Or.inl h1
        · intro _
          rfl
      · constructor
        · intro _ p hp
          rw [Option.some.injEq] at hp
          subst hp
          exact Or.inr h2
        · intro _
          rfl
      · push_neg at h1 h2
        constructor
        · intro hcontra
          exact absurd hcontra (by simp)
        · intro hall
          rcases hall q rfl with hbad | hbad
          · exact absurd h1 hbad
          · exact absurd h2 hbad
  · intro s p hok
    obtain ⟨-, hl, hf⟩ := (hmain s p).1 hok
    exact ⟨is_valid_perm_nodup ⟨hl, hf⟩,
      fun v hv => is_valid_perm_mem ⟨hl, hf⟩ hv, hl⟩
  · intro s p
    unfold V2.validate_permutation
    rcases hps : V2.parse_tokens s with _ | q
    · constructor
      · intro hcontra
        exact absurd hcontra (by simp)
      · rintro ⟨hq, -, -⟩
        exact Option.noConfusion hq
    · dsimp only
      split_ifs with h1 h2
      · constructor
        · intro hcontra
          exact absurd hcontra (by simp)
        · rintro ⟨hq, hl, -⟩
          rw [Option.some.injEq] at hq
          subst hq
          exact absurd hl h1
      · constructor
        · intro hcontra
          exact absurd hcontra (by simp)
        · rintro ⟨hq, -, hf⟩
          rw [Option.some.injEq] at hq
          subst hq
          exact absurd hf h2
      · push_neg at h1 h2
        constructor
        · intro hok
          rw [Except.ok.injEq] at hok
          subst hok
          exact ⟨rfl, h1, h2⟩
        · rintro ⟨hq, -, -⟩
          rw [Option.some.injEq] at hq
          subst hq
          rfl

/-- Witness for C4 on the digit-string format. -/
theorem validator_accepts_iff_witness :
    validate_permutation "123456789" = .ok [1, 2, 3, 4, 5, 6, 7, 8, 9] :=
  (validator_accepts_iff.1 "123456789" [1, 2, 3, 4, 5, 6, 7, 8, 9]).2
    ⟨rfl, rfl, by decide⟩

/-- C6: the per-frame duration handed to the encoder is
`int(totalDurationSeconds * 1000 / 10)` (the frame count is 10) in
`src/gif_unveil.py`, and the fixed value 500 ms in
`src/gifboxes/gif_unveil.py`. -/
theorem encoder_duration_formula (img : Img) (perm : List ℤ) (d : ℚ) :
    (encoder_call img perm d).frames.length = 10 ∧
    (encoder_call img perm d).duration = pyInt (d * 1000 / 10) ∧
    (V2.encoder_call img perm).duration = 500 ∧
    (V2.encoder_call img perm).frames.length = 10 := by
  refine ⟨rfl, ?_, rfl, rfl⟩
  show pyInt (d * 1000 / ((create_frames img perm).length : ℚ)) =
    pyInt (d * 1000 / 10)
  rw [create_frames_length]
  norm_num

/-- Witness for C6 at the default 12-second duration. -/
theorem encoder_duration_formula_witness :
    (encoder_call default [1, 2, 3, 4, 5, 6, 7, 8, 9] 12).duration =
      pyInt 1200 := by
  have h := encoder_duration_formula default [1, 2, 3, 4, 5, 6, 7, 8, 9] 12
  rw [h.2.1]
  norm_num

/-- Counterexample to C8 as stated: with a nonexistent input file and the
invalid permutation string `"12345678"`, the program exits non-zero but with
the file-not-found error, not `InvalidPermutationError` — the file-existence
check runs first. -/
theorem invalid_perm_error_counterexample :
    validate_permutation "12345678" = .error () ∧
    (main_run ⟨false, "12345678", true, true⟩).exitCode = 1 ∧
    (main_run ⟨false, "12345678", true, true⟩).err = some ErrKind.fileNotFound ∧
    (main_run ⟨false, "12345678", true, true⟩).err ≠
      some ErrKind.invalidPermutation := by
  refine ⟨rfl, rfl, rfl, ?_⟩
  decide

/-- C8 amended: on every run whose permutation string is invalid the process
exits with status 1 and neither decodes the image nor renders frames; and
whenever additionally the input file exists, the reported error is
`InvalidPermutationError`. -/
theorem invalid_perm_gates_decode (inp : RunInput)
    (hinv : validate_permutation inp.permStr = .error ()) :
    (main_run inp).exitCode = 1 ∧
    Event.decodeImage ∉ (main_run inp).trace ∧
    Event.renderFrames ∉ (main_run inp).trace ∧
    (inp.fileExists = true →
      (main_run inp).err = some ErrKind.invalidPermutation) := by
  cases hfe : inp.fileExists with
  | false => simp [main_run, hfe]
  | true => simp [main_run, hfe, hinv]

/-- Witness for C8's amended theorem at an existing file and an 8-digit
permutation string. -/
theorem invalid_perm_gates_decode_witness :
    (main_run ⟨true, "12345678", true, true⟩).exitCode = 1 ∧
    Event.decodeImage ∉ (main_run ⟨true, "12345678", true, true⟩).trace ∧
    Event.renderFrames ∉ (main_run ⟨true, "12345678", true, true⟩).trace ∧
    ((⟨true, "12345678", true, true⟩ : RunInput).fileExists = true →
      (main_run ⟨true, "12345678", true, true⟩).err =
        some ErrKind.invalidPermutation) :=
  invalid_perm_gates_decode ⟨true, "12345678", true, true⟩ rfl

/-- C9: the two variants compute identical grid partitions and identical
frame sequences for the same (already decoded) source image and permutation;
they differ in the loop flag passed to the encoder (play once vs. loop
forever) and in the accepted permutation string formats (the space-separated
form is accepted only by `src/gif_unveil.py`). -/
theorem variants_equivalent :
    (∀ w h, V2.get_grid_coordinates w h = get_grid_coordinates w h) ∧
    (∀ img perm, V2.create_frames img perm = create_frames img perm) ∧
    (∀ img perm d,
      (encoder_call img perm d).frames = (V2.encoder_call img perm).frames) ∧
    (∀ img perm d,
      (encoder_call img perm d).loop = none ∧
      (V2.encoder_call img perm).loop = some 0) ∧
    (validate_permutation "1 2 3 4 5 6 7 8 9" = .ok [1, 2, 3, 4, 5, 6, 7, 8, 9] ∧
      V2.validate_permutation "1 2 3 4 5 6 7 8 9" = .error ()) := by
  refine ⟨fun w h => rfl, fun img perm => rfl, fun img perm d => rfl,
    fun img perm d => ⟨rfl, rfl⟩, rfl, rfl⟩

/-- Witness for C9 at the 10×10 grid. -/
theorem variants_equivalent_witness :
    V2.get_grid_coordinates 10 10 = get_grid_coordinates 10 10 :=
  variants_equivalent.1 10 10

end GifUnveil
